import Mathlib

/-!
Verification of the active-run streaming pipeline of the ironclaw web app:
the Start+Stream route (POST, chat streaming), the Reconnect+Stream route
(GET /api/chat/stream), the Stop route (POST /api/chat/stop) and the
session-message persistence route (POST /api/web-sessions/[id]/messages),
together with the run ledger / event broadcaster they are built on.

The route handlers are embedded from the TypeScript source.  The
`@/lib/active-runs` module itself (run ledger, process supervisor and
event broadcaster) is not part of the visible source tree; where its
behaviour decides a claim it is modelled from the specification, and each
such definition says so in its doc comment.
-/

namespace Ironclaw

/-! ## Messages and request shape (start route)

From the start route (POST handler): a `UIMessage` has a `role` and a
list of `parts`; only parts with `type === "text"` carry text the route
reads.  Non-text parts are collapsed into one constructor since the route
filters them out. -/

inductive MsgPart where
  | text (t : String)
  | other
deriving DecidableEq, Repr

structure UIMessage where
  id : String
  role : String
  parts : List MsgPart
deriving DecidableEq, Repr

/-- `parts.filter(p => p.type === "text").map(p => p.text)` -/
def textParts (ps : List MsgPart) : List String :=
  ps.filterMap fun p =>
    match p with
    | .text t => some t
    | .other => none

/-- `messages.filter(m => m.role === "user").pop()` — the last user message. -/
def lastUserMessage (messages : List UIMessage) : Option UIMessage :=
  (messages.filter (fun m => m.role == "user")).getLast?

/-- `lastUserMessage?.parts?.filter(... text ...).map(p => p.text).join("\n") ?? ""` -/
def userTextOf (messages : List UIMessage) : String :=
  match lastUserMessage messages with
  | some m => String.intercalate "\n" (textParts m.parts)
  | none => ""

/-- The guard `!userText.trim()`: a JS string trims to the empty (falsy)
string exactly when every character is whitespace. -/
def isBlank (s : String) : Bool :=
  s.data.all Char.isWhitespace

/-! ## SSE stream body produced by the routes

Both streaming routes build a `ReadableStream` whose `start(controller)`
either closes the stream at once (no session / failed subscribe) or
subscribes a callback to the run.  The callback, fed the run's event
sequence (with `null` as the terminal sentinel), is embedded as
`deliverLoop`: a `closed` flag, one `data: <json>\n\n` frame per
non-`null` event, `controller.close()` on `null`, and every later
delivery dropped by the `closed` guard. -/

inductive StreamBody where
  | closedNow
  | subscribed (sid : String) (replay : Bool)
deriving DecidableEq, Repr

/-- One SSE frame: `encoder.encode(\x60data: ${json}\n\n\x60)` with
`json = JSON.stringify(event)`, abstracted as `enc`. -/
def sseFrame {ε : Type} (enc : ε → String) (e : ε) : String :=
  "data: " ++ enc e ++ "\n\n"

/-- The subscriber callback of both streaming routes, run over a delivered
event sequence (`none` is the terminal sentinel `null`). -/
def deliverLoop {ε : Type} (enc : ε → String) : Bool → List (Option ε) → List String
  | _, [] => []
  | closed, ev :: rest =>
    if closed then deliverLoop enc closed rest
    else
      match ev with
      | none => deliverLoop enc true rest
      | some e => sseFrame enc e :: deliverLoop enc false rest

/-- Frames written to the HTTP response for a delivered event sequence. -/
def sseFrames {ε : Type} (enc : ε → String) (evs : List (Option ε)) : List String :=
  deliverLoop enc false evs

/-- Frames a given stream body emits: a stream closed in `start` delivers
nothing; a subscribed stream runs the callback. -/
def framesFor {ε : Type} (enc : ε → String) : StreamBody → List (Option ε) → List String
  | .closedNow, _ => []
  | .subscribed _ _, evs => sseFrames enc evs

/-! ## Start+Stream route (POST) -/

/-- Calls the start handler makes into `@/lib/active-runs` and the
session store, in order. -/
inductive StartEffect where
  | checkActive (sid : String)
  | persistUser (sid : String) (msgId : String) (content : String)
  | runStart (sid : String) (message : String) (agentSessionId : String)
deriving DecidableEq, Repr

/-- The ledger as the route observes it: whether `hasActiveRun(sid)` is
true, whether `startRun` throws, and whether `subscribeToRun` returns a
non-null unsubscribe function. -/
structure LedgerView where
  hasActive : String → Bool
  runResult : String → Except String Unit
  subOk : String → Bool

structure StartReq where
  messages : List UIMessage
  sessionId : Option String
deriving Repr

structure StartResult where
  status : Nat
  headers : List (String × String)
  effects : List StartEffect
  stream : Option StreamBody
deriving DecidableEq, Repr

def sseHeaders : List (String × String) :=
  [("Content-Type", "text/event-stream"),
   ("Cache-Control", "no-cache, no-transform"),
   ("Connection", "keep-alive")]

/-- The start route when every `if (sessionId)` guard is falsy (absent or
empty-string session id): no ledger call, no persistence, and the stream's
`start` runs `controller.close()` immediately. -/
def noSessionResult : StartResult :=
  { status := 200, headers := sseHeaders, effects := [], stream := some .closedNow }

/-- The POST start handler.  `rw` stands for the workspace-path rewrite
block (`resolveAgentWorkspacePrefix` plus the regex replace on the
context line); the route applies it to the user text to build
`agentMessage` and no claim depends on its content. -/
def startHandler (L : LedgerView) (rw : String → String) (req : StartReq) : StartResult :=
  let lastUser := lastUserMessage req.messages
  let userText := userTextOf req.messages
  if isBlank userText then
    { status := 400, headers := [], effects := [], stream := none }
  else
    match req.sessionId with
    | none => noSessionResult
    | some sid =>
      if sid = "" then noSessionResult
      else if L.hasActive sid then
        { status := 409, headers := [], effects := [.checkActive sid], stream := none }
      else
        let agentMessage := rw userText
        let persistEffs :=
          match lastUser with
          | some m => [StartEffect.persistUser sid m.id userText]
          | none => []
        let effs := StartEffect.checkActive sid :: persistEffs ++
          [StartEffect.runStart sid agentMessage sid]
        match L.runResult sid with
        | .error _ => { status := 500, headers := [], effects := effs, stream := none }
        | .ok _ =>
          { status := 200, headers := sseHeaders, effects := effs,
            stream := some (if L.subOk sid then .subscribed sid false else .closedNow) }

/-- Whether an effect is a `startRun` call. -/
def StartEffect.isRunStart : StartEffect → Bool
  | .runStart _ _ _ => true
  | _ => false

/-! ## Event broadcaster

Modelled from the spec: the `@/lib/active-runs` module is not in the
visible source tree, so the per-run event broadcaster (§4.3) is modelled
from the specification's words.  `publish(event)` appends to the bounded
buffer (oldest events drop once the cap is exceeded) and forwards to
every registered subscriber; the terminal sentinel marks the stream
complete, is delivered to all current subscribers and to every future
subscriber exactly once, and no further events are delivered after it;
`subscribe(cb, {replay})` delivers the whole current buffer in order
before live registration; `unsubscribe` removes one subscriber.
Deliveries are recorded as `(subscriber id, Option event)` pairs,
`none` being the sentinel. -/

structure BState (ε : Type) where
  buffer : List ε
  done : Bool
  subs : List Nat
deriving DecidableEq, Repr

def BState.init {ε : Type} : BState ε :=
  { buffer := [], done := false, subs := [] }

/-- Append to the bounded buffer, dropping the oldest once `cap` is
exceeded (spec: "bounded ring or capped list"; the cap value is left a
parameter, the spec does not fix it). -/
def capAppend {ε : Type} (cap : Nat) (buf : List ε) (e : ε) : List ε :=
  let b := buf ++ [e]
  b.drop (b.length - cap)

inductive BOp (ε : Type) where
  | publish (e : ε)
  | finish
  | subscribeOp (i : Nat) (replay : Bool)
  | unsubscribeOp (i : Nat)
deriving DecidableEq, Repr

/-- Modelled from the spec: one broadcaster operation, returning the new
state and the deliveries it makes. -/
def bstep {ε : Type} (cap : Nat) (s : BState ε) : BOp ε → BState ε × List (Nat × Option ε)
  | .publish e =>
    if s.done then (s, [])
    else ({ s with buffer := capAppend cap s.buffer e },
          s.subs.map fun i => (i, some e))
  | .finish =>
    if s.done then (s, [])
    else ({ s with done := true, subs := [] },
          s.subs.map fun i => (i, none))
  | .subscribeOp i replay =>
    let replayed : List (Nat × Option ε) :=
      if replay then s.buffer.map (fun e => (i, some e)) else []
    if s.done then (s, replayed ++ [(i, none)])
    else ({ s with subs := s.subs ++ [i] }, replayed)
  | .unsubscribeOp i =>
    ({ s with subs := s.subs.filter (fun j => j ≠ i) }, [])

/-- Run a sequence of broadcaster operations, collecting all deliveries. -/
def brun {ε : Type} (cap : Nat) (s : BState ε) : List (BOp ε) → BState ε × List (Nat × Option ε)
  | [] => (s, [])
  | op :: ops =>
    ((brun cap (bstep cap s op).1 ops).1,
     (bstep cap s op).2 ++ (brun cap (bstep cap s op).1 ops).2)

/-- The events (and sentinel) delivered to subscriber `i` by a trace. -/
def receivedBy {ε : Type} (cap : Nat) (s : BState ε) (i : Nat) (ops : List (BOp ε)) :
    List (Option ε) :=
  ((brun cap s ops).2.filter (fun d => d.1 = i)).map (fun d => d.2)

/-- The events a trace effectively publishes: every `publish` argument up
to the first `finish` (the spec delivers and buffers nothing after the
sentinel). -/
def effPub {ε : Type} : List (BOp ε) → List ε
  | [] => []
  | .publish e :: ops => e :: effPub ops
  | .finish :: _ => []
  | .subscribeOp _ _ :: ops => effPub ops
  | .unsubscribeOp _ :: ops => effPub ops

/-- Whether a trace mentions subscriber `i` in a subscribe or unsubscribe. -/
def mentions {ε : Type} (i : Nat) : List (BOp ε) → Bool
  | [] => false
  | .subscribeOp j _ :: ops => j = i || mentions i ops
  | .unsubscribeOp j :: ops => j = i || mentions i ops
  | _ :: ops => mentions i ops

/-! ## Run ledger

Modelled from the spec: the run ledger (§4.1) keys runs by session id;
`hasActiveRun` is true iff a run exists in a non-terminal state
(`starting` or `running`); `getActiveRun` returns the run regardless of
terminal state as long as it has not been evicted; `abortRun` terminates
the worker of an active run, transitions it to `error` and broadcasts
the terminal sentinel, and is a no-op otherwise.  The worker handle is
non-null only while the status is non-terminal; `workerAlive` records
whether the spawned process is still running. -/

inductive RunStatus where
  | starting
  | running
  | done
  | error
deriving DecidableEq, Repr

def RunStatus.terminal : RunStatus → Bool
  | .done => true
  | .error => true
  | _ => false

structure Run (ε : Type) where
  status : RunStatus
  workerAlive : Bool
  b : BState ε
deriving DecidableEq, Repr

/-- The ledger: an association of non-evicted runs, keyed by session id
(eviction after the grace period removes the entry). -/
def Ledger (ε : Type) : Type := List (String × Run ε)

/-- Modelled from the spec: `getActiveRun(sessionId)` — the run for the
key, terminal or not, until evicted. -/
def getActiveRun {ε : Type} (L : Ledger ε) (sid : String) : Option (Run ε) :=
  (L.find? (fun p => p.1 = sid)).map (fun p => p.2)

/-- Modelled from the spec: `hasActiveRun(sessionId)` — true iff a run
exists in a non-terminal state. -/
def hasActiveRun {ε : Type} (L : Ledger ε) (sid : String) : Bool :=
  match getActiveRun L sid with
  | some r => !r.status.terminal
  | none => false

/-- Update the run stored under `sid`, if any. -/
def updateRun {ε : Type} : Ledger ε → String → (Run ε → Run ε) → Ledger ε
  | [], _, _ => []
  | (k, r) :: rest, sid, f =>
    if k = sid then (k, f r) :: rest else (k, r) :: updateRun rest sid f

/-- Ledger-level operations the transport adapters perform: a client
disconnect (stream `cancel`: unsubscribe only), a subscribe, and the
explicit `abortRun` of the Stop route. -/
inductive LOp where
  | disconnect (sid : String) (i : Nat)
  | subscribeRun (sid : String) (i : Nat) (replay : Bool)
  | abortRun (sid : String)
deriving DecidableEq, Repr

/-- Modelled from the spec: effect of one ledger operation.  A disconnect
only unsubscribes the one listener; `abortRun` terminates the worker of
an active run, moves it to `error` and publishes the sentinel. -/
def lstep {ε : Type} (cap : Nat) (L : Ledger ε) : LOp → Ledger ε
  | .disconnect sid i =>
    updateRun L sid fun r => { r with b := (bstep cap r.b (.unsubscribeOp i)).1 }
  | .subscribeRun sid i replay =>
    updateRun L sid fun r => { r with b := (bstep cap r.b (.subscribeOp i replay)).1 }
  | .abortRun sid =>
    updateRun L sid fun r =>
      if r.status.terminal then r
      else { r with status := .error, workerAlive := false,
                    b := (bstep cap r.b .finish).1 }

/-- The stream `cancel()` callback of both streaming routes (from the
source): set `closed = true` and call the unsubscribe function — nothing
else.  Returns the updated ledger and the new `closed` flag. -/
def streamCancel {ε : Type} (cap : Nat) (L : Ledger ε) (sid : String) (i : Nat) :
    Ledger ε × Bool :=
  (lstep cap L (.disconnect sid i), true)

/-! ## Reconnect+Stream route (GET /api/chat/stream) -/

structure ReconnectResult where
  status : Nat
  headers : List (String × String)
  stream : Option StreamBody
deriving DecidableEq, Repr

/-- The GET reconnect handler, from the source: 400 without a session id,
404 when `getActiveRun` finds nothing, otherwise a `text/event-stream`
response subscribing with `replay: true` and the header
`X-Run-Active: run.status === "running" ? "true" : "false"`. -/
def reconnectHandler {ε : Type} (L : Ledger ε) (sessionId : Option String) : ReconnectResult :=
  match sessionId with
  | none => { status := 400, headers := [], stream := none }
  | some sid =>
    match getActiveRun L sid with
    | none => { status := 404, headers := [], stream := none }
    | some run =>
      { status := 200,
        headers := sseHeaders ++
          [("X-Run-Active", if run.status = .running then "true" else "false")],
        stream := some (.subscribed sid true) }

/-! ## Session message persistence route (POST /api/web-sessions/[id]/messages)

The route reads the session's JSONL file, splits it into non-blank
lines, and for each incoming message with a string `id` replaces the
first line whose `JSON.parse` yields that `id` (malformed lines are kept
as-is and skipped by the `catch`); a message whose `id` is absent or not
a string, or whose `id` matches no line, is appended.  A stored line is
embedded as `JLine`: either a record a `JSON.parse` recovers, or a
malformed blob on which `JSON.parse` throws; `JSON.stringify(msg)`
yields the record line for `msg`. -/

structure StoredMsg where
  id : Option String
  payload : String
deriving DecidableEq, Repr

inductive JLine where
  | ok (m : StoredMsg)
  | bad (raw : String)
deriving DecidableEq, Repr

/-- `JSON.parse(line).id === msgId` (false when the parse throws or the
parsed id differs). -/
def lineMatches (i : String) : JLine → Bool
  | .ok m => m.id == some i
  | .bad _ => false

/-- The inner `for` loop: replace the first line whose parsed id equals
`i` with `JSON.stringify(msg)`; report whether one was found. -/
def replaceFirst (i : String) (m : StoredMsg) : List JLine → List JLine × Bool
  | [] => ([], false)
  | l :: ls =>
    if lineMatches i l then (JLine.ok m :: ls, true)
    else ((l :: (replaceFirst i m ls).1, (replaceFirst i m ls).2))

/-- One iteration of the outer `for (const msg of messages)` loop. -/
def upsertOne (lines : List JLine) (m : StoredMsg) : List JLine :=
  match m.id with
  | some i =>
    if (replaceFirst i m lines).2 then (replaceFirst i m lines).1
    else lines ++ [JLine.ok m]
  | none => lines ++ [JLine.ok m]

/-- The whole upsert pass over the incoming `messages` array. -/
def upsertAll (lines : List JLine) (msgs : List StoredMsg) : List JLine :=
  msgs.foldl upsertOne lines

/-- The POST messages handler on the parsed file: 400 when `messages` is
not a non-empty array, otherwise the rewritten line list that is written
back. -/
def messagesHandler (fileLines : List JLine) (msgs : List StoredMsg) :
    Except Nat (List JLine) :=
  if msgs.isEmpty then .error 400 else .ok (upsertAll fileLines msgs)

/-- The parsed id of a stored line (`none` for malformed lines). -/
def lineId : JLine → Option String
  | .ok m => m.id
  | .bad _ => none

/-- The string ids carried by the incoming messages. -/
def msgIds (msgs : List StoredMsg) : List String :=
  msgs.filterMap (fun m => m.id)

/-- Whether a broadcaster trace contains the terminal `finish`. -/
def hasFinish {ε : Type} : List (BOp ε) → Bool
  | [] => false
  | .finish :: _ => true
  | _ :: ops => hasFinish ops

/-! # Theorems -/

/-! ## SSE framing (claim C4) -/

theorem deliverLoop_closed {ε : Type} (enc : ε → String) (evs : List (Option ε)) :
    deliverLoop enc true evs = [] := by
  induction evs with
  | nil => rfl
  | cons ev rest ih => simp [deliverLoop, ih]

/-- C4: on either streaming route, each non-terminal delivered event is
written as exactly one frame `data: <json>` plus a blank line, in order;
the terminal sentinel produces no frame and nothing is emitted after it
(completion is only the stream close). -/
theorem c4_sse_framing {ε : Type} (enc : ε → String) (evs : List (Option ε)) :
    sseFrames enc evs =
      (evs.takeWhile Option.isSome).filterMap (fun o => o.map (sseFrame enc)) := by
  induction evs with
  | nil => rfl
  | cons ev rest ih =>
    cases ev with
    | none => simp [sseFrames, deliverLoop, deliverLoop_closed, List.takeWhile]
    | some e =>
      simp [sseFrames, deliverLoop, List.takeWhile] at ih ⊢
      exact ih

/-! ## Start route: empty user text (claim C8) -/

/-- C8: a start request whose last user message has empty or
whitespace-only concatenated text is answered 400, and the conflict
check, `persistUserMessage` and `startRun` are all never invoked. -/
theorem c8_empty_text_rejected (L : LedgerView) (rw : String → String) (req : StartReq)
    (h : isBlank (userTextOf req.messages) = true) :
    (startHandler L rw req).status = 400 ∧
    (startHandler L rw req).effects = [] ∧
    (startHandler L rw req).stream = none := by
  unfold startHandler
  simp [h]

theorem c8_witness :
    isBlank (userTextOf ([] : List UIMessage)) = true ∧
    ((startHandler ⟨fun _ => false, fun _ => .ok (), fun _ => true⟩ id ⟨[], none⟩).status = 400 ∧
     (startHandler ⟨fun _ => false, fun _ => .ok (), fun _ => true⟩ id ⟨[], none⟩).effects = [] ∧
     (startHandler ⟨fun _ => false, fun _ => .ok (), fun _ => true⟩ id ⟨[], none⟩).stream = none) :=
  ⟨by decide, c8_empty_text_rejected _ _ _ (by decide)⟩

/-! ## Start route: request without a session id (claim C10) -/

/-- C10: a start request with non-empty user text but no `sessionId` is
not rejected: no conflict check, no persistence and no `startRun` happen,
and the handler answers 200 with a `text/event-stream` whose stream is
closed immediately in `start`, delivering zero events. -/
theorem c10_no_session (L : LedgerView) (rw : String → String) (req : StartReq)
    (h1 : req.sessionId = none) (h2 : isBlank (userTextOf req.messages) = false) :
    (startHandler L rw req).status = 200 ∧
    (startHandler L rw req).effects = [] ∧
    (startHandler L rw req).headers = sseHeaders ∧
    (startHandler L rw req).stream = some .closedNow ∧
    (∀ (ε : Type) (enc : ε → String) (b : StreamBody) (evs : List (Option ε)),
      (startHandler L rw req).stream = some b → framesFor enc b evs = []) := by
  unfold startHandler
  rw [h1]
  simp only [h2, Bool.false_eq_true, if_false]
  refine ⟨rfl, rfl, rfl, rfl, ?_⟩
  intro ε enc b evs hb
  simp only [noSessionResult, Option.some.injEq] at hb
  subst hb
  rfl

theorem c10_witness :
    (let req : StartReq := ⟨[⟨"m1", "user", [MsgPart.text "hi"]⟩], none⟩
     let L : LedgerView := ⟨fun _ => true, fun _ => .ok (), fun _ => true⟩
     req.sessionId = none ∧ isBlank (userTextOf req.messages) = false ∧
     ((startHandler L id req).status = 200 ∧
      (startHandler L id req).effects = [] ∧
      (startHandler L id req).headers = sseHeaders ∧
      (startHandler L id req).stream = some .closedNow ∧
      (∀ (ε : Type) (enc : ε → String) (b : StreamBody) (evs : List (Option ε)),
        (startHandler L id req).stream = some b → framesFor enc b evs = []))) :=
  ⟨by decide, by decide, c10_no_session _ _ _ (by decide) (by decide)⟩

/-! ## Start route: conflict handling (claim C1) -/

/-- C1 as stated is false on the code: a POST that carries a session id
with an active run but whose user text is empty is rejected with 400 (the
empty-message guard runs first), not 409. -/
theorem c1_counterexample :
    (let L : LedgerView := ⟨fun _ => true, fun _ => .ok (), fun _ => true⟩
     let req : StartReq := ⟨[], some "s1"⟩
     L.hasActive "s1" = true ∧ req.sessionId = some "s1" ∧
     (startHandler L id req).status = 400 ∧
     ¬(startHandler L id req).status = 409) := by
  refine ⟨rfl, rfl, ?_, ?_⟩ <;> decide

/-- C1 amended: for a POST carrying a (non-empty) session id with an
active run, the request never succeeds and no run is started: it is
rejected with 409 exactly when the user text is non-blank, and with 400
(by the earlier empty-message guard) exactly when the user text is
blank. -/
theorem c1_amended_conflict_rejected (L : LedgerView) (rw : String → String)
    (req : StartReq) (sid : String)
    (hs : req.sessionId = some sid) (hne : sid ≠ "")
    (hact : L.hasActive sid = true) :
    ((startHandler L rw req).status = 409 ∨ (startHandler L rw req).status = 400) ∧
    (startHandler L rw req).status ≠ 200 ∧
    (∀ e ∈ (startHandler L rw req).effects, e.isRunStart = false) ∧
    (startHandler L rw req).stream = none ∧
    (isBlank (userTextOf req.messages) = false → (startHandler L rw req).status = 409) ∧
    (isBlank (userTextOf req.messages) = true → (startHandler L rw req).status = 400) := by
  unfold startHandler
  rw [hs]
  by_cases hb : isBlank (userTextOf req.messages) = true
  · simp [hb]
  · simp only [Bool.not_eq_true] at hb
    simp [hb, hne, hact, StartEffect.isRunStart]

theorem c1_witness :
    (let L : LedgerView := ⟨fun _ => true, fun _ => .ok (), fun _ => true⟩
     let req : StartReq := ⟨[⟨"m1", "user", [MsgPart.text "hi"]⟩], some "s1"⟩
     req.sessionId = some "s1" ∧ "s1" ≠ "" ∧ L.hasActive "s1" = true ∧
     (((startHandler L id req).status = 409 ∨ (startHandler L id req).status = 400) ∧
      (startHandler L id req).status ≠ 200 ∧
      (∀ e ∈ (startHandler L id req).effects, e.isRunStart = false) ∧
      (startHandler L id req).stream = none ∧
      (isBlank (userTextOf req.messages) = false → (startHandler L id req).status = 409) ∧
      (isBlank (userTextOf req.messages) = true → (startHandler L id req).status = 400))) :=
  ⟨by decide, by decide, by decide,
   c1_amended_conflict_rejected ⟨fun _ => true, fun _ => .ok (), fun _ => true⟩ id
     ⟨[⟨"m1", "user", [MsgPart.text "hi"]⟩], some "s1"⟩ "s1"
     (by decide) (by decide) (by decide)⟩

/-! ## Reconnect route: 404 semantics (claim C7) -/

/-- C7: a reconnect request with a session id gets 404 exactly when the
ledger holds no (non-evicted) run for it; when a run exists the response
is a 200 `text/event-stream` subscribed with replay. -/
theorem c7_reconnect_404 {ε : Type} (L : Ledger ε) (sid : String) :
    ((reconnectHandler L (some sid)).status = 404 ↔ getActiveRun L sid = none) ∧
    (∀ run, getActiveRun L sid = some run →
      (reconnectHandler L (some sid)).status = 200 ∧
      (reconnectHandler L (some sid)).stream = some (.subscribed sid true) ∧
      ("Content-Type", "text/event-stream") ∈ (reconnectHandler L (some sid)).headers) := by
  unfold reconnectHandler
  cases h : getActiveRun L sid with
  | none => simp [h]
  | some run => simp [h, sseHeaders]

theorem c7_witness :
    (let L : Ledger Nat := [("s1", ⟨.running, true, BState.init⟩)]
     ((reconnectHandler L (some "s1")).status = 404 ↔ getActiveRun L "s1" = none) ∧
     (∀ run, getActiveRun L "s1" = some run →
       (reconnectHandler L (some "s1")).status = 200 ∧
       (reconnectHandler L (some "s1")).stream = some (.subscribed "s1" true) ∧
       ("Content-Type", "text/event-stream") ∈ (reconnectHandler L (some "s1")).headers)) :=
  c7_reconnect_404 _ "s1"

/-! ## Reconnect route: the activity header (claim C6) -/

/-- C6 as stated is false on the code: the header is
`run.status === "running" ? "true" : "false"`, so a run still in the
non-terminal `starting` state is reported as not active. -/
theorem c6_counterexample :
    (let L : Ledger Nat := [("s1", ⟨.starting, true, BState.init⟩)]
     RunStatus.terminal .starting = false ∧
     ("X-Run-Active", "false") ∈ (reconnectHandler L (some "s1")).headers ∧
     ("X-Run-Active", "true") ∉ (reconnectHandler L (some "s1")).headers) := by
  refine ⟨rfl, ?_, ?_⟩ <;> decide

/-- C6 amended: the reconnect response header reports the run as active
exactly when its status is `running` (a `starting` run is reported
inactive, and terminal runs are reported inactive). -/
theorem c6_amended_header (ε : Type) (L : Ledger ε) (sid : String) (run : Run ε)
    (h : getActiveRun L sid = some run) :
    (reconnectHandler L (some sid)).status = 200 ∧
    (("X-Run-Active", "true") ∈ (reconnectHandler L (some sid)).headers ↔
      run.status = .running) ∧
    (("X-Run-Active", "false") ∈ (reconnectHandler L (some sid)).headers ↔
      ¬run.status = .running) := by
  by_cases hr : run.status = .running <;>
    simp [reconnectHandler, h, hr, sseHeaders]

theorem c6_witness :
    (let L : Ledger Nat := [("s1", ⟨.running, true, BState.init⟩)]
     getActiveRun L "s1" = some ⟨.running, true, BState.init⟩ ∧
     ((reconnectHandler L (some "s1")).status = 200 ∧
      (("X-Run-Active", "true") ∈ (reconnectHandler L (some "s1")).headers ↔
        RunStatus.running = .running) ∧
      (("X-Run-Active", "false") ∈ (reconnectHandler L (some "s1")).headers ↔
        ¬RunStatus.running = .running))) :=
  ⟨by decide,
   c6_amended_header Nat [("s1", ⟨.running, true, BState.init⟩)] "s1"
     ⟨.running, true, BState.init⟩ (by decide)⟩

/-! ## Ledger lemmas -/

theorem getActiveRun_updateRun_eq {ε : Type} (L : Ledger ε) (sid : String)
    (f : Run ε → Run ε) :
    getActiveRun (updateRun L sid f) sid = (getActiveRun L sid).map f := by
  induction L with
  | nil => rfl
  | cons p rest ih =>
    obtain ⟨k, r⟩ := p
    simp only [updateRun]
    by_cases hk : k = sid
    · rw [if_pos hk]
      simp only [getActiveRun]
      rw [List.find?_cons_of_pos _ (by simp [hk]),
          List.find?_cons_of_pos _ (by simp [hk])]
      rfl
    · rw [if_neg hk]
      simp only [getActiveRun] at ih ⊢
      rw [List.find?_cons_of_neg _ (by simp [hk]),
          List.find?_cons_of_neg _ (by simp [hk])]
      exact ih

theorem getActiveRun_updateRun_ne {ε : Type} (L : Ledger ε) (sid s : String)
    (f : Run ε → Run ε) (h : s ≠ sid) :
    getActiveRun (updateRun L sid f) s = getActiveRun L s := by
  induction L with
  | nil => rfl
  | cons p rest ih =>
    obtain ⟨k, r⟩ := p
    simp only [updateRun]
    by_cases hk : k = sid
    · rw [if_pos hk]
      have hks : ¬k = s := fun hh => h (hk ▸ hh ▸ rfl)
      simp only [getActiveRun]
      rw [List.find?_cons_of_neg _ (by simp [hks]),
          List.find?_cons_of_neg _ (by simp [hks])]
    · rw [if_neg hk]
      by_cases hks : k = s
      · simp only [getActiveRun]
        rw [List.find?_cons_of_pos _ (by simp [hks]),
            List.find?_cons_of_pos _ (by simp [hks])]
      · simp only [getActiveRun] at ih ⊢
        rw [List.find?_cons_of_neg _ (by simp [hks]),
            List.find?_cons_of_neg _ (by simp [hks])]
        exact ih

/-! ## Client disconnect never kills the worker (claim C2) -/

/-- C2: a client disconnect (the stream `cancel` callback) only removes
that one subscriber: every run's status, worker and buffer are unchanged,
other sessions are untouched, and across all transport operations only an
explicit `abortRun` ever terminates a live worker. -/
theorem c2_disconnect_only_unsubscribes {ε : Type} (cap : Nat) (L : Ledger ε)
    (sid : String) (i : Nat) :
    (∀ s : String,
       (getActiveRun (streamCancel cap L sid i).1 s).map
         (fun r => (r.status, r.workerAlive, r.b.buffer, r.b.done)) =
       (getActiveRun L s).map
         (fun r => (r.status, r.workerAlive, r.b.buffer, r.b.done))) ∧
    ((getActiveRun (streamCancel cap L sid i).1 sid).map (fun r => r.b.subs) =
       (getActiveRun L sid).map (fun r => r.b.subs.filter (fun j => j ≠ i))) ∧
    (∀ s : String, s ≠ sid →
       getActiveRun (streamCancel cap L sid i).1 s = getActiveRun L s) ∧
    (∀ (op : LOp) (s : String) (r r' : Run ε),
       getActiveRun L s = some r → getActiveRun (lstep cap L op) s = some r' →
       r.workerAlive = true → r'.workerAlive = false → op = .abortRun s) := by
  refine ⟨?_, ?_, ?_, ?_⟩
  · intro s
    by_cases hs : s = sid
    · subst hs
      rw [show (streamCancel cap L s i).1 = updateRun L s
            (fun r => { r with b := (bstep cap r.b (.unsubscribeOp i)).1 }) from rfl]
      rw [getActiveRun_updateRun_eq]
      cases getActiveRun L s with
      | none => rfl
      | some r => rfl
    · rw [show (streamCancel cap L sid i).1 = updateRun L sid
            (fun r => { r with b := (bstep cap r.b (.unsubscribeOp i)).1 }) from rfl]
      rw [getActiveRun_updateRun_ne _ _ _ _ hs]
  · rw [show (streamCancel cap L sid i).1 = updateRun L sid
        (fun r => { r with b := (bstep cap r.b (.unsubscribeOp i)).1 }) from rfl]
    rw [getActiveRun_updateRun_eq]
    cases getActiveRun L sid with
    | none => rfl
    | some r => rfl
  · intro s hs
    rw [show (streamCancel cap L sid i).1 = updateRun L sid
        (fun r => { r with b := (bstep cap r.b (.unsubscribeOp i)).1 }) from rfl]
    exact getActiveRun_updateRun_ne _ _ _ _ hs
  · intro op s r r' h1 h2 h3 h4
    cases op with
    | disconnect sid' j =>
      exfalso
      by_cases hs : s = sid'
      · subst hs
        rw [show lstep cap L (.disconnect s j) = updateRun L s
              (fun r => { r with b := (bstep cap r.b (.unsubscribeOp j)).1 }) from rfl,
            getActiveRun_updateRun_eq, h1] at h2
        cases h2
        simp_all
      · rw [show lstep cap L (.disconnect sid' j) = updateRun L sid'
              (fun r => { r with b := (bstep cap r.b (.unsubscribeOp j)).1 }) from rfl,
            getActiveRun_updateRun_ne _ _ _ _ hs, h1] at h2
        cases h2
        simp_all
    | subscribeRun sid' j rp =>
      exfalso
      by_cases hs : s = sid'
      · subst hs
        rw [show lstep cap L (.subscribeRun s j rp) = updateRun L s
              (fun r => { r with b := (bstep cap r.b (.subscribeOp j rp)).1 }) from rfl,
            getActiveRun_updateRun_eq, h1] at h2
        cases h2
        simp_all
      · rw [show lstep cap L (.subscribeRun sid' j rp) = updateRun L sid'
              (fun r => { r with b := (bstep cap r.b (.subscribeOp j rp)).1 }) from rfl,
            getActiveRun_updateRun_ne _ _ _ _ hs, h1] at h2
        cases h2
        simp_all
    | abortRun sid' =>
      by_cases hs : s = sid'
      · subst hs
        rfl
      · exfalso
        rw [show lstep cap L (.abortRun sid') = updateRun L sid'
              (fun r => if r.status.terminal then r
                else { r with status := .error, workerAlive := false,
                              b := (bstep cap r.b .finish).1 }) from rfl,
            getActiveRun_updateRun_ne _ _ _ _ hs, h1] at h2
        cases h2
        simp_all

theorem c2_witness :
    (let L : Ledger Nat := [("s1", ⟨.running, true, ⟨[1, 2], false, [0, 7]⟩⟩)]
     (∀ s : String,
        (getActiveRun (streamCancel 8 L "s1" 7).1 s).map
          (fun r => (r.status, r.workerAlive, r.b.buffer, r.b.done)) =
        (getActiveRun L s).map
          (fun r => (r.status, r.workerAlive, r.b.buffer, r.b.done))) ∧
     ((getActiveRun (streamCancel 8 L "s1" 7).1 "s1").map (fun r => r.b.subs) =
        (getActiveRun L "s1").map (fun r => r.b.subs.filter (fun j => j ≠ 7))) ∧
     (∀ s : String, s ≠ "s1" →
        getActiveRun (streamCancel 8 L "s1" 7).1 s = getActiveRun L s) ∧
     (∀ (op : LOp) (s : String) (r r' : Run Nat),
        getActiveRun L s = some r → getActiveRun (lstep 8 L op) s = some r' →
        r.workerAlive = true → r'.workerAlive = false → op = .abortRun s)) :=
  c2_disconnect_only_unsubscribes 8 _ "s1" 7

/-! ## Upsert persistence lemmas (messages route) -/

theorem replaceFirst_length (i : String) (m : StoredMsg) (ls : List JLine) :
    (replaceFirst i m ls).1.length = ls.length := by
  induction ls with
  | nil => rfl
  | cons l ls ih =>
    simp only [replaceFirst]
    by_cases hl : lineMatches i l
    · rw [if_pos hl]
      simp
    · rw [if_neg hl]
      simp [ih]

theorem replaceFirst_not_found (i : String) (m : StoredMsg) (ls : List JLine)
    (h : (replaceFirst i m ls).2 = false) :
    (replaceFirst i m ls).1 = ls ∧ ∀ l ∈ ls, lineMatches i l = false := by
  induction ls with
  | nil => exact ⟨rfl, by simp⟩
  | cons l ls ih =>
    simp only [replaceFirst] at h ⊢
    by_cases hl : lineMatches i l
    · rw [if_pos hl] at h
      cases h
    · rw [if_neg hl] at h ⊢
      obtain ⟨h1, h2⟩ := ih h
      refine ⟨by rw [h1], ?_⟩
      intro l' hl'
      rcases List.mem_cons.mp hl' with rfl | hmem
      · simpa using hl
      · exact h2 l' hmem

theorem replaceFirst_get_ne (i : String) (m : StoredMsg) (ls : List JLine)
    (j : Nat) (l : JLine) (hj : ls[j]? = some l) (hl : lineMatches i l = false) :
    (replaceFirst i m ls).1[j]? = some l := by
  induction ls generalizing j with
  | nil => cases hj
  | cons hd tl ih =>
    simp only [replaceFirst]
    by_cases hh : lineMatches i hd
    · rw [if_pos hh]
      cases j with
      | zero =>
        simp only [List.getElem?_cons_zero, Option.some.injEq] at hj
        subst hj
        rw [hh] at hl
        cases hl
      | succ j => simpa using hj
    · rw [if_neg hh]
      cases j with
      | zero => simpa using hj
      | succ j =>
        simp only [List.getElem?_cons_succ] at hj ⊢
        exact ih j hj

theorem replaceFirst_filter (i : String) (m : StoredMsg) (ls : List JLine)
    (h0 : ls.countP (lineMatches i) ≤ 1) (hf : (replaceFirst i m ls).2 = true)
    (hm : lineMatches i (JLine.ok m) = true) :
    (replaceFirst i m ls).1.filter (lineMatches i) = [JLine.ok m] := by
  induction ls with
  | nil => cases hf
  | cons hd tl ih =>
    simp only [replaceFirst] at hf ⊢
    by_cases hh : lineMatches i hd
    · rw [if_pos hh]
      have hcount : tl.countP (lineMatches i) = 0 := by
        rw [List.countP_cons_of_pos (lineMatches i) tl hh] at h0
        omega
      have hnil : tl.filter (lineMatches i) = [] := by
        rw [List.filter_eq_nil_iff]
        intro a ha
        have := List.countP_eq_zero.mp hcount a ha
        simpa using this
      simp [List.filter, hm, hnil]
    · rw [if_neg hh] at hf ⊢
      have h0' : tl.countP (lineMatches i) ≤ 1 := by
        rw [List.countP_cons_of_neg (lineMatches i) tl hh] at h0
        exact h0
      have := ih h0' hf
      simp [List.filter, hh, this]

theorem upsertOne_some (ls : List JLine) (m : StoredMsg) (i : String)
    (h : m.id = some i) :
    upsertOne ls m =
      if (replaceFirst i m ls).2 then (replaceFirst i m ls).1
      else ls ++ [JLine.ok m] := by
  unfold upsertOne
  rw [h]

theorem upsertOne_none (ls : List JLine) (m : StoredMsg) (h : m.id = none) :
    upsertOne ls m = ls ++ [JLine.ok m] := by
  unfold upsertOne
  rw [h]

theorem upsertOne_filter (ls : List JLine) (m : StoredMsg) (i : String)
    (h0 : ls.countP (lineMatches i) ≤ 1) (h1 : m.id = some i) :
    (upsertOne ls m).filter (lineMatches i) = [JLine.ok m] := by
  have hm : lineMatches i (JLine.ok m) = true := by simp [lineMatches, h1]
  rw [upsertOne_some ls m i h1]
  cases hf : (replaceFirst i m ls).2 with
  | true =>
    rw [if_pos rfl]
    exact replaceFirst_filter i m ls h0 hf hm
  | false =>
    rw [if_neg (by simp)]
    obtain ⟨-, h2⟩ := replaceFirst_not_found i m ls hf
    have hnil : ls.filter (lineMatches i) = [] := by
      rw [List.filter_eq_nil_iff]
      intro a ha
      simp [h2 a ha]
    rw [List.filter_append, hnil]
    simp [List.filter, hm]

/-! ## Upsert persistence (claim C5) -/

/-- C5: persisting a message with the same id twice through the messages
endpoint leaves exactly one stored record for that id, holding the later
write (starting from any file with at most one record for the id, in
particular from the endpoint-created empty file). -/
theorem c5_upsert_twice (ls : List JLine) (m m' : StoredMsg) (i : String)
    (h0 : ls.countP (lineMatches i) ≤ 1) (h1 : m.id = some i) (h2 : m'.id = some i) :
    ∃ L1 L2, messagesHandler ls [m] = .ok L1 ∧ messagesHandler L1 [m'] = .ok L2 ∧
      L2.filter (lineMatches i) = [JLine.ok m'] ∧
      L2.countP (lineMatches i) = 1 := by
  refine ⟨upsertOne ls m, upsertOne (upsertOne ls m) m', rfl, rfl, ?_, ?_⟩
  · have hc1 : (upsertOne ls m).countP (lineMatches i) ≤ 1 := by
      rw [List.countP_eq_length_filter, upsertOne_filter ls m i h0 h1]
      simp
    exact upsertOne_filter _ m' i hc1 h2
  · have hc1 : (upsertOne ls m).countP (lineMatches i) ≤ 1 := by
      rw [List.countP_eq_length_filter, upsertOne_filter ls m i h0 h1]
      simp
    rw [List.countP_eq_length_filter, upsertOne_filter _ m' i hc1 h2]
    simp

theorem c5_witness :
    (([] : List JLine).countP (lineMatches "m1") ≤ 1 ∧
     (⟨some "m1", "first"⟩ : StoredMsg).id = some "m1" ∧
     (⟨some "m1", "second"⟩ : StoredMsg).id = some "m1") ∧
    (∃ L1 L2, messagesHandler [] [⟨some "m1", "first"⟩] = .ok L1 ∧
      messagesHandler L1 [⟨some "m1", "second"⟩] = .ok L2 ∧
      L2.filter (lineMatches "m1") = [JLine.ok ⟨some "m1", "second"⟩] ∧
      L2.countP (lineMatches "m1") = 1) :=
  ⟨⟨by decide, rfl, rfl⟩,
   c5_upsert_twice [] ⟨some "m1", "first"⟩ ⟨some "m1", "second"⟩ "m1"
     (by decide) rfl rfl⟩

/-! ## Frame effect of the upsert pass (claim C9) -/

theorem upsertOne_get_preserved (ls : List JLine) (m : StoredMsg) (j : Nat) (l : JLine)
    (hj : ls[j]? = some l)
    (hl : ∀ i : String, m.id = some i → lineMatches i l = false) :
    (upsertOne ls m)[j]? = some l := by
  have hlen : j < ls.length := by
    rcases List.getElem?_eq_some.mp hj with ⟨hlt, -⟩
    exact hlt
  cases hid : m.id with
  | none =>
    rw [upsertOne_none ls m hid, List.getElem?_append_left hlen]
    exact hj
  | some i =>
    rw [upsertOne_some ls m i hid]
    cases hf : (replaceFirst i m ls).2 with
    | true =>
      rw [if_pos rfl]
      exact replaceFirst_get_ne i m ls j l hj (hl i hid)
    | false =>
      rw [if_neg (by simp)]
      rw [List.getElem?_append_left hlen]
      exact hj

theorem upsertAll_get_preserved (msgs : List StoredMsg) (ls : List JLine)
    (j : Nat) (l : JLine) (hj : ls[j]? = some l)
    (hl : ∀ i ∈ msgIds msgs, lineMatches i l = false) :
    (upsertAll ls msgs)[j]? = some l := by
  induction msgs generalizing ls with
  | nil => exact hj
  | cons m msgs ih =>
    have hstep : (upsertOne ls m)[j]? = some l := by
      refine upsertOne_get_preserved ls m j l hj ?_
      intro i hi
      refine hl i ?_
      simp [msgIds, hi]
    refine ih (upsertOne ls m) hstep ?_
    intro i hi
    refine hl i ?_
    simp only [msgIds, List.filterMap_cons]
    cases m.id <;> simp [msgIds] at hi ⊢ <;> simp [hi]

theorem upsertOne_length_le (ls : List JLine) (m : StoredMsg) :
    ls.length ≤ (upsertOne ls m).length := by
  cases hid : m.id with
  | none =>
    rw [upsertOne_none ls m hid]
    simp
  | some i =>
    rw [upsertOne_some ls m i hid]
    cases hf : (replaceFirst i m ls).2 with
    | true =>
      rw [if_pos rfl, replaceFirst_length]
    | false =>
      rw [if_neg (by simp)]
      simp

theorem upsertAll_length_le (msgs : List StoredMsg) (ls : List JLine) :
    ls.length ≤ (upsertAll ls msgs).length := by
  induction msgs generalizing ls with
  | nil => exact Nat.le_refl _
  | cons m msgs ih =>
    exact Nat.le_trans (upsertOne_length_le ls m) (ih (upsertOne ls m))

/-- C9: for a POST with a non-empty messages array, every pre-existing
line whose parsed id matches none of the incoming ids — malformed lines
included — is preserved verbatim at its original position (hence in its
original relative order), and every incoming message without a string id
is appended beyond the original lines, never replacing one. -/
theorem c9_upsert_frame (ls : List JLine) (msgs : List StoredMsg) (h : msgs ≠ []) :
    ∃ out, messagesHandler ls msgs = .ok out ∧
      (∀ (j : Nat) (l : JLine), ls[j]? = some l →
        (∀ i ∈ msgIds msgs, lineMatches i l = false) → out[j]? = some l) ∧
      (∀ m ∈ msgs, m.id = none →
        ∃ j, ls.length ≤ j ∧ out[j]? = some (JLine.ok m)) := by
  refine ⟨upsertAll ls msgs, ?_, ?_, ?_⟩
  · unfold messagesHandler
    rw [if_neg (by simpa [List.isEmpty_iff] using h)]
  · intro j l hj hl
    exact upsertAll_get_preserved msgs ls j l hj hl
  · intro m hm hid
    obtain ⟨s, t, rfl⟩ := List.append_of_mem hm
    have hsplit : upsertAll ls (s ++ m :: t) =
        upsertAll (upsertOne (upsertAll ls s) m) t := by
      unfold upsertAll
      rw [List.foldl_append, List.foldl_cons]
    refine ⟨(upsertAll ls s).length, upsertAll_length_le s ls, ?_⟩
    rw [hsplit]
    have hmid : (upsertOne (upsertAll ls s) m)[(upsertAll ls s).length]? =
        some (JLine.ok m) := by
      rw [upsertOne_none _ m hid]
      simp
    refine upsertAll_get_preserved t _ _ _ hmid ?_
    intro i _
    simp [lineMatches, hid]

theorem c9_witness :
    (let ls : List JLine := [JLine.bad "not json", JLine.ok ⟨some "a", "x"⟩]
     let msgs : List StoredMsg := [⟨some "b", "y"⟩, ⟨none, "z"⟩]
     msgs ≠ [] ∧
     ∃ out, messagesHandler ls msgs = .ok out ∧
       (∀ (j : Nat) (l : JLine), ls[j]? = some l →
         (∀ i ∈ msgIds msgs, lineMatches i l = false) → out[j]? = some l) ∧
       (∀ m ∈ msgs, m.id = none →
         ∃ j, ls.length ≤ j ∧ out[j]? = some (JLine.ok m))) :=
  ⟨by decide,
   c9_upsert_frame [JLine.bad "not json", JLine.ok ⟨some "a", "x"⟩]
     [⟨some "b", "y"⟩, ⟨none, "z"⟩] (by decide)⟩

/-! ## Broadcaster lemmas -/

theorem brun_append_fst {ε : Type} (cap : Nat) (xs ys : List (BOp ε)) : ∀ s : BState ε,
    (brun cap s (xs ++ ys)).1 = (brun cap (brun cap s xs).1 ys).1 := by
  induction xs with
  | nil => intro s; rfl
  | cons op ops ih =>
    intro s
    show (brun cap (bstep cap s op).1 (ops ++ ys)).1 =
      (brun cap (brun cap (bstep cap s op).1 ops).1 ys).1
    exact ih _

theorem brun_append_snd {ε : Type} (cap : Nat) (xs ys : List (BOp ε)) : ∀ s : BState ε,
    (brun cap s (xs ++ ys)).2 =
      (brun cap s xs).2 ++ (brun cap (brun cap s xs).1 ys).2 := by
  induction xs with
  | nil => intro s; simp [brun]
  | cons op ops ih =>
    intro s
    show (bstep cap s op).2 ++ (brun cap (bstep cap s op).1 (ops ++ ys)).2 =
      ((bstep cap s op).2 ++ (brun cap (bstep cap s op).1 ops).2) ++
        (brun cap (brun cap (bstep cap s op).1 ops).1 ys).2
    rw [ih]
    simp [List.append_assoc]

theorem brun_done {ε : Type} (cap : Nat) (ops : List (BOp ε)) : ∀ s : BState ε,
    s.done = true →
    (brun cap s ops).1.buffer = s.buffer ∧ (brun cap s ops).1.done = true := by
  induction ops with
  | nil => intro s h; exact ⟨rfl, h⟩
  | cons op ops ih =>
    intro s h
    cases op with
    | publish e =>
      simp only [brun, bstep, h, if_true]
      exact ih s h
    | finish =>
      simp only [brun, bstep, h, if_true]
      exact ih s h
    | subscribeOp j rp =>
      simp only [brun, bstep, h, if_true]
      exact ih s h
    | unsubscribeOp j =>
      simp only [brun, bstep]
      exact ih _ h

theorem brun_buffer {ε : Type} (cap : Nat) (ops : List (BOp ε)) : ∀ s : BState ε,
    s.done = false →
    (brun cap s ops).1.buffer = List.foldl (capAppend cap) s.buffer (effPub ops) := by
  induction ops with
  | nil => intro s _; rfl
  | cons op ops ih =>
    intro s h
    cases op with
    | publish e =>
      simp only [brun, bstep, h, if_false, effPub, List.foldl_cons, Bool.false_eq_true]
      exact ih _ rfl
    | finish =>
      simp only [brun, bstep, h, if_false, effPub, List.foldl, Bool.false_eq_true]
      exact (brun_done cap ops _ rfl).1
    | subscribeOp j rp =>
      simp only [brun, bstep, h, if_false, effPub, Bool.false_eq_true]
      exact ih _ rfl
    | unsubscribeOp j =>
      simp only [brun, bstep, effPub]
      exact ih _ h

theorem brun_no_deliv {ε : Type} (cap : Nat) (ops : List (BOp ε)) : ∀ (s : BState ε) (i : Nat),
    i ∉ s.subs → mentions i ops = false →
    ((brun cap s ops).2.filter (fun d => d.1 = i)) = [] ∧
      i ∉ (brun cap s ops).1.subs := by
  induction ops with
  | nil => intro s i hi _; exact ⟨rfl, hi⟩
  | cons op ops ih =>
    intro s i hi hm
    cases op with
    | publish e =>
      simp only [mentions] at hm
      by_cases hd : s.done
      · simp only [brun, bstep, hd, if_true, List.nil_append]
        exact ih s i hi hm
      · simp only [brun, bstep, hd, if_false, Bool.false_eq_true, List.filter_append]
        have hdel : ((s.subs.map (fun j => (j, some e))).filter
            (fun d => d.1 = i)) = [] := by
          rw [List.filter_eq_nil_iff]
          intro d hd'
          rcases List.mem_map.mp hd' with ⟨j, hj, rfl⟩
          simp only [decide_eq_true_eq]
          exact fun hji => hi (hji ▸ hj)
        rw [hdel]
        simpa using
          ih { buffer := capAppend cap s.buffer e, done := false, subs := s.subs } i hi hm
    | finish =>
      simp only [mentions] at hm
      by_cases hd : s.done
      · simp only [brun, bstep, hd, if_true, List.nil_append]
        exact ih s i hi hm
      · simp only [brun, bstep, hd, if_false, Bool.false_eq_true, List.filter_append]
        have hdel : ((s.subs.map (fun j => (j, (none : Option ε)))).filter
            (fun d => d.1 = i)) = [] := by
          rw [List.filter_eq_nil_iff]
          intro d hd'
          rcases List.mem_map.mp hd' with ⟨j, hj, rfl⟩
          simp only [decide_eq_true_eq]
          exact fun hji => hi (hji ▸ hj)
        rw [hdel]
        simpa using
          ih { buffer := s.buffer, done := true, subs := [] } i (by simp) hm
    | subscribeOp j rp =>
      simp only [mentions, Bool.or_eq_false_iff, decide_eq_false_iff_not] at hm
      obtain ⟨hji, hm⟩ := hm
      have hrep : ((if rp then s.buffer.map (fun e => (j, some e)) else []).filter
          (fun d => d.1 = i)) = [] := by
        rw [List.filter_eq_nil_iff]
        intro d hd'
        by_cases hrp : rp
        · rw [if_pos hrp] at hd'
          rcases List.mem_map.mp hd' with ⟨e, he, rfl⟩
          simp only [decide_eq_true_eq]
          exact fun hc => hji hc
        · rw [if_neg hrp] at hd'
          cases hd'
      by_cases hd : s.done
      · simp only [brun, bstep, hd, if_true, List.filter_append, hrep, List.nil_append]
        have : (([(j, (none : Option ε))]).filter (fun d => d.1 = i)) = [] := by
          simp [hji]
        rw [this, List.nil_append]
        exact ih s i hi hm
      · simp only [brun, bstep, hd, if_false, Bool.false_eq_true, List.filter_append, hrep,
          List.nil_append]
        refine ih _ i ?_ hm
        simp only [List.mem_append, List.mem_singleton]
        rintro (h | h)
        · exact hi h
        · exact hji (h ▸ rfl)
    | unsubscribeOp j =>
      simp only [mentions, Bool.or_eq_false_iff, decide_eq_false_iff_not] at hm
      obtain ⟨hji, hm⟩ := hm
      simp only [brun, bstep, List.nil_append]
      refine ih _ i ?_ hm
      intro hmem
      exact hi (List.mem_of_mem_filter hmem)

theorem deliv_filter {ε : Type} (subs : List Nat) (i : Nat) (x : Option ε) :
    (((subs.map (fun j => (j, x))).filter (fun d => d.1 = i)).map (fun d => d.2)) =
      (subs.filter (fun j => j = i)).map (fun _ => x) := by
  induction subs with
  | nil => rfl
  | cons j subs ih =>
    by_cases hj : j = i
    · simp only [List.map_cons, List.filter_cons, hj]
      simpa using ih
    · simp only [List.map_cons, List.filter_cons, decide_eq_true_eq, hj, if_false]
      simpa [hj] using ih

theorem replay_deliv_filter {ε : Type} (buf : List ε) (i : Nat) :
    (((buf.map (fun e => (i, some e))).filter (fun d => d.1 = i)).map (fun d => d.2)) =
      buf.map some := by
  induction buf with
  | nil => rfl
  | cons e buf ih =>
    simp only [List.map_cons, List.filter_cons]
    simpa using ih

theorem brun_live {ε : Type} (cap : Nat) (ops : List (BOp ε)) : ∀ (s : BState ε) (i : Nat),
    s.done = false → s.subs.filter (fun j => j = i) = [i] → mentions i ops = false →
    (((brun cap s ops).2.filter (fun d => d.1 = i)).map (fun d => d.2)) =
      (effPub ops).map some ++ (if hasFinish ops then [none] else []) := by
  induction ops with
  | nil =>
    intro s i _ _ _
    simp [brun, hasFinish, effPub]
  | cons op ops ih =>
    intro s i hd hsub hm
    cases op with
    | publish e =>
      simp only [mentions] at hm
      simp only [brun, bstep, hd, if_false, Bool.false_eq_true, List.filter_append,
        List.map_append, effPub, hasFinish, List.map_cons]
      rw [deliv_filter, hsub]
      simp only [List.map_cons, List.map_nil]
      rw [ih { buffer := capAppend cap s.buffer e, done := false, subs := s.subs }
        i rfl hsub hm]
      simp
    | finish =>
      simp only [mentions] at hm
      simp only [brun, bstep, hd, if_false, Bool.false_eq_true, List.filter_append,
        List.map_append, effPub, hasFinish]
      rw [deliv_filter, hsub]
      have hrest := brun_no_deliv cap ops ⟨s.buffer, true, []⟩ i (by simp) hm
      rw [hrest.1]
      simp
    | subscribeOp j rp =>
      simp only [mentions, Bool.or_eq_false_iff, decide_eq_false_iff_not] at hm
      obtain ⟨hji, hm⟩ := hm
      have hrep : ((if rp then s.buffer.map (fun e => (j, some e)) else []).filter
          (fun d => d.1 = i)) = [] := by
        rw [List.filter_eq_nil_iff]
        intro d hd'
        by_cases hrp : rp
        · rw [if_pos hrp] at hd'
          rcases List.mem_map.mp hd' with ⟨e, he, rfl⟩
          simp only [decide_eq_true_eq]
          omega
        · rw [if_neg hrp] at hd'
          cases hd'
      simp only [brun, bstep, hd, if_false, Bool.false_eq_true, List.filter_append,
        List.map_append, hrep, List.map_nil, List.nil_append, effPub, hasFinish]
      refine ih ⟨s.buffer, false, s.subs ++ [j]⟩ i rfl ?_ hm
      show ((s.subs ++ [j]).filter (fun k => k = i)) = [i]
      rw [List.filter_append, hsub]
      have hj : (([j].filter (fun k => k = i)) : List Nat) = [] := by
        rw [List.filter_eq_nil_iff]
        intro a ha
        simp only [List.mem_singleton] at ha
        subst ha
        simp only [decide_eq_true_eq]
        omega
      rw [hj, List.append_nil]
    | unsubscribeOp j =>
      simp only [mentions, Bool.or_eq_false_iff, decide_eq_false_iff_not] at hm
      obtain ⟨hji, hm⟩ := hm
      simp only [brun, bstep, List.nil_append, effPub, hasFinish]
      refine ih ⟨s.buffer, s.done, s.subs.filter (fun k => k ≠ j)⟩ i hd ?_ hm
      show ((s.subs.filter (fun k => k ≠ j)).filter (fun k => k = i)) = [i]
      rw [List.filter_filter]
      have hfun : (fun (a : Nat) => decide (a = i) && decide (¬a = j)) =
          (fun a => decide (a = i)) := by
        funext a
        by_cases ha : a = i
        · simp only [ha]
          have hij : ¬i = j := by omega
          simp [hij]
        · simp [ha]
      rw [hfun]
      exact hsub

theorem foldl_capAppend {ε : Type} (cap : Nat) (l : List ε) : ∀ buf : List ε,
    buf.length + l.length ≤ cap →
    List.foldl (capAppend cap) buf l = buf ++ l := by
  induction l with
  | nil => intro buf _; simp
  | cons e rest ih =>
    intro buf h
    have hlen : buf.length + 1 + rest.length ≤ cap := by
      simp only [List.length_cons] at h
      omega
    simp only [List.foldl_cons]
    have hz : (buf ++ [e]).length - cap = 0 := by
      simp only [List.length_append, List.length_cons, List.length_nil]
      omega
    have hstep : capAppend cap buf e = buf ++ [e] := by
      unfold capAppend
      show List.drop ((buf ++ [e]).length - cap) (buf ++ [e]) = buf ++ [e]
      rw [hz, List.drop_zero]
    have hlen2 : (buf ++ [e]).length + rest.length ≤ cap := by
      simp only [List.length_append, List.length_cons, List.length_nil]
      omega
    rw [hstep, ih (buf ++ [e]) hlen2]
    simp

/-! ## Replay completeness (claim C3) -/

/-- C3: a subscriber registering with replay over a broadcaster trace
receives every effectively published earlier event first, in publish
order and exactly once, and after that boundary only events published
later (followed by at most the terminal sentinel) — no duplicate and no
gap, provided the earlier events fit the buffer cap. -/
theorem c3_replay_completeness {ε : Type} (cap : Nat) (i : Nat) (pre post : List (BOp ε))
    (h1 : mentions i pre = false) (h2 : mentions i post = false)
    (hcap : (effPub pre).length ≤ cap) :
    receivedBy cap BState.init i (pre ++ .subscribeOp i true :: post) =
      (effPub pre).map some ++
        (if (brun cap BState.init pre).1.done then [none]
         else (effPub post).map some ++ (if hasFinish post then [none] else [])) := by
  obtain ⟨hpre1, hpre2⟩ :=
    brun_no_deliv cap pre BState.init i (by simp [BState.init]) h1
  have hbuf : (brun cap BState.init pre).1.buffer = effPub pre := by
    rw [brun_buffer cap pre BState.init rfl]
    simpa [BState.init] using foldl_capAppend cap (effPub pre) [] (by simpa using hcap)
  unfold receivedBy
  rw [brun_append_snd, List.filter_append, List.map_append, hpre1]
  simp only [List.map_nil, List.nil_append]
  rw [show (brun cap (brun cap BState.init pre).1 (BOp.subscribeOp i true :: post)).2 =
      (bstep cap (brun cap BState.init pre).1 (.subscribeOp i true)).2 ++
        (brun cap (bstep cap (brun cap BState.init pre).1 (.subscribeOp i true)).1 post).2
    from rfl]
  cases hd : (brun cap BState.init pre).1.done with
  | true =>
    simp only [bstep, hd, if_true, List.filter_append, List.map_append]
    rw [replay_deliv_filter, hbuf]
    have hpost := brun_no_deliv cap post (brun cap BState.init pre).1 i hpre2 h2
    rw [hpost.1]
    simp [hd]
  | false =>
    simp only [bstep, hd, if_false, Bool.false_eq_true, if_true, List.filter_append,
      List.map_append]
    rw [replay_deliv_filter, hbuf]
    have hnil : ((brun cap BState.init pre).1.subs.filter (fun j => j = i)) = [] := by
      rw [List.filter_eq_nil_iff]
      intro a ha
      simp only [decide_eq_true_eq]
      exact fun hc => hpre2 (hc ▸ ha)
    have hsub1 : (((brun cap BState.init pre).1.subs ++ [i]).filter
        (fun j => j = i)) = [i] := by
      rw [List.filter_append, hnil, List.nil_append]
      simp
    have hlive := brun_live cap post
      ⟨effPub pre, false, (brun cap BState.init pre).1.subs ++ [i]⟩ i rfl hsub1 h2
    rw [hlive]

theorem c3_witness :
    (mentions 5 ([.publish 1, .publish 2, .publish 3] : List (BOp Nat)) = false ∧
     mentions 5 ([.publish 4] : List (BOp Nat)) = false ∧
     (effPub ([.publish 1, .publish 2, .publish 3] : List (BOp Nat))).length ≤ 10) ∧
    receivedBy 10 BState.init 5
        ([.publish 1, .publish 2, .publish 3] ++ .subscribeOp 5 true :: [.publish 4]) =
      (effPub ([.publish 1, .publish 2, .publish 3] : List (BOp Nat))).map some ++
        (if (brun 10 BState.init [.publish 1, .publish 2, .publish 3]).1.done then [none]
         else (effPub ([.publish 4] : List (BOp Nat))).map some ++
           (if hasFinish ([.publish 4] : List (BOp Nat)) then [none] else [])) :=
  ⟨⟨by decide, by decide, by decide⟩,
   c3_replay_completeness 10 5 [.publish 1, .publish 2, .publish 3] [.publish 4]
     (by decide) (by decide) (by decide)⟩

end Ironclaw
